import Mathlib

/-!
A verification development for the `filemail` repository (files
`filemail.py` and `fm2.py`): a shallow embedding of its pure core
(paginated fetch with size filtering, duplicate grouping, report
rendering, mail dispatch logging) together with theorems settling the
specification's claims about it.

Modelling conventions:
* A Drive file-metadata dictionary becomes `FileRecord`; the optional
  JSON keys `size`, `parents`, `webViewLink` become `Option` fields.
  A Python `KeyError` / `IndexError` on such a field is modelled by the
  enclosing computation returning `none`.
* A page response from the listing API becomes `Option Page`: `none`
  models an `HttpError` caught inside `fetch_page` (which returns
  `None`).  `fetch_files` consumes successive responses from a list,
  mirroring the sequential one-page-in-flight loop.
* Logging statements have no effect on the values the functions return
  and are dropped, except in `send_email`, whose observable behaviour
  in the claims IS what it logs: it returns a `MailLog`.
-/

/-- A file-metadata record as delivered by the listing API.
`size`, `parents` and `webViewLink` are optional JSON keys. -/
structure FileRecord where
  id : String
  name : String
  size : Option Nat
  modifiedTime : String
  parents : Option (List String)
  webViewLink : Option String
deriving Repr, DecidableEq

/-- One page of the listing API's response: the records of the page and
the optional continuation token (`nextPageToken`). -/
structure Page where
  files : List FileRecord
  nextPageToken : Option String
deriving Repr, DecidableEq

/-- `filemail.py` line 67: `if size_filter and int(file.get('size', 0)) <= size_filter`.
A record is skipped iff a size filter is present, is nonzero (Python
truthiness of an integer), and the record's size (default 0) is ≤ it. -/
def skipRecord (size_filter : Option Nat) (f : FileRecord) : Bool :=
  match size_filter with
  | none => false
  | some sf => decide (sf ≠ 0) && decide (f.size.getD 0 ≤ sf)

/-- The inner `for file in response.get('files', [])` loop of
`fetch_files` in `filemail.py` (lines 66-74): skips filtered records,
appends the rest while counting, and returns early (third component
`true`) as soon as the count reaches `limit`. -/
def fetchPageFiles (size_filter : Option Nat) (limit : Nat) :
    List FileRecord → List FileRecord → Nat → List FileRecord × Nat × Bool
  | [], acc, count => (acc, count, false)
  | f :: fs, acc, count =>
    if skipRecord size_filter f then
      fetchPageFiles size_filter limit fs acc count
    else
      if limit ≤ count + 1 then (acc ++ [f], count + 1, true)
      else fetchPageFiles size_filter limit fs (acc ++ [f]) (count + 1)

/-- The outer `while True` loop of `fetch_files` in `filemail.py`
(lines 62-77): takes the next page response; a failed request (`none`)
breaks the loop; an early return inside the page ends the fetch; an
absent or empty continuation token breaks the loop. -/
def fetchFilesLoop (size_filter : Option Nat) (limit : Nat) :
    List (Option Page) → List FileRecord → Nat → List FileRecord
  | [], acc, _ => acc
  | none :: _, acc, _ => acc
  | some pg :: rest, acc, count =>
    let r := fetchPageFiles size_filter limit pg.files acc count
    if r.2.2 then r.1
    else
      match pg.nextPageToken with
      | none => r.1
      | some tok => if tok = "" then r.1 else fetchFilesLoop size_filter limit rest r.1 r.2.1

/-- `fetch_files` of `filemail.py` (lines 42-80), as a function of the
sequence of page responses the service produces.  The Python default
for `limit` is 1000. -/
def fetch_files (responses : List (Option Page)) (size_filter : Option Nat)
    (limit : Nat) : List FileRecord :=
  fetchFilesLoop size_filter limit responses [] 0

/-- `fm2.py` line 64: the identical size-filter guard of the second
implementation. -/
def skipRecordFm2 (size_filter : Option Nat) (f : FileRecord) : Bool :=
  match size_filter with
  | none => false
  | some sf => decide (sf ≠ 0) && decide (f.size.getD 0 ≤ sf)

/-- The inner record loop of `fetch_files` in `fm2.py` (lines 63-69);
it lacks the progress-logging line of `filemail.py`, which does not
affect the returned value. -/
def fetchPageFilesFm2 (size_filter : Option Nat) (limit : Nat) :
    List FileRecord → List FileRecord → Nat → List FileRecord × Nat × Bool
  | [], acc, count => (acc, count, false)
  | f :: fs, acc, count =>
    if skipRecordFm2 size_filter f then
      fetchPageFilesFm2 size_filter limit fs acc count
    else
      if limit ≤ count + 1 then (acc ++ [f], count + 1, true)
      else fetchPageFilesFm2 size_filter limit fs (acc ++ [f]) (count + 1)

/-- The outer loop of `fetch_files` in `fm2.py` (lines 59-72). -/
def fetchFilesLoopFm2 (size_filter : Option Nat) (limit : Nat) :
    List (Option Page) → List FileRecord → Nat → List FileRecord
  | [], acc, _ => acc
  | none :: _, acc, _ => acc
  | some pg :: rest, acc, count =>
    let r := fetchPageFilesFm2 size_filter limit pg.files acc count
    if r.2.2 then r.1
    else
      match pg.nextPageToken with
      | none => r.1
      | some tok => if tok = "" then r.1 else fetchFilesLoopFm2 size_filter limit rest r.1 r.2.1

/-- `fetch_files` of `fm2.py` (lines 39-74); its Python default for
`limit` is 100 (versus 1000 in `filemail.py`). -/
def fetch_files_fm2 (responses : List (Option Page)) (size_filter : Option Nat)
    (limit : Nat) : List FileRecord :=
  fetchFilesLoopFm2 size_filter limit responses [] 0

/-- The grouping key read by `process_duplicate_files`:
`(file['name'], file['size'])`, defined only when the `size` key is
present. -/
def recKey (f : FileRecord) : Option (String × Nat) :=
  f.size.map fun s => (f.name, s)

/-- `file_groups.setdefault(key, []).append(file)` on an
insertion-ordered dictionary modelled as an association list: append
`f` to the first entry with key `k`, or add a fresh `(k, [f])` entry at
the end. -/
def insertRecord : List ((String × Nat) × List FileRecord) → (String × Nat) → FileRecord →
    List ((String × Nat) × List FileRecord)
  | [], k, f => [(k, [f])]
  | (k0, ms) :: rest, k, f =>
    if k0 = k then (k0, ms ++ [f]) :: rest
    else (k0, ms) :: insertRecord rest k f

/-- The loop of `process_duplicate_files` (`filemail.py` lines 97-99):
`key = (file['name'], file['size'])` raises `KeyError` (→ `none`) when
a record has no size. -/
def groupRecords : List FileRecord → List ((String × Nat) × List FileRecord) →
    Option (List ((String × Nat) × List FileRecord))
  | [], acc => some acc
  | f :: fs, acc =>
    match f.size with
    | none => none
    | some s => groupRecords fs (insertRecord acc (f.name, s) f)

/-- `process_duplicate_files` of `filemail.py` (lines 94-100). -/
def process_duplicate_files (files : List FileRecord) :
    Option (List ((String × Nat) × List FileRecord)) :=
  groupRecords files []

/-- The caller's duplicate selection, `filemail.py` line 130:
`[files for files in file_groups.values() if len(files) > 1]`. -/
def duplicate_files (gs : List ((String × Nat) × List FileRecord)) :
    List (List FileRecord) :=
  (gs.map Prod.snd).filter fun ms => decide (1 < ms.length)

/-- Sequential rendering of a list of items where rendering one item
may fail (a raised `KeyError`/`IndexError` aborts the whole f-string):
the Python `''.join(generator)` evaluating each element in order. -/
def renderAll {α : Type} (r : α → Option String) : List α → Option (List String)
  | [] => some []
  | x :: xs =>
    match r x, renderAll r xs with
    | some s, some rest => some (s :: rest)
    | _, _ => none

/-- One `<li>` of the large-files section (`filemail.py` line 140):
`file['size']` raises `KeyError` when the size key is absent. -/
def renderLargeFile (f : FileRecord) : Option String :=
  match f.size with
  | none => none
  | some s =>
    some ("<li>" ++ f.name ++ " (" ++ toString s ++ " bytes, last modified "
      ++ f.modifiedTime ++ ")</li>")

/-- One `<li>` of the old-docs section (`filemail.py` line 144). -/
def renderOldDoc (f : FileRecord) : String :=
  "<li>" ++ f.name ++ " (last modified " ++ f.modifiedTime ++ ")</li>"

/-- One member line of a duplicate group (`filemail.py` line 148):
`f.get('parents', ['unknown'])[0]` yields `"unknown"` when the
`parents` key is absent, the first element when the list is nonempty,
and raises `IndexError` (→ `none`) when the list is present but empty. -/
def renderDupMember (f : FileRecord) : Option String :=
  match f.parents with
  | none => some ("<li>ID: " ++ f.id ++ " (parent folder: unknown)</li>")
  | some [] => none
  | some (p :: _) => some ("<li>ID: " ++ f.id ++ " (parent folder: " ++ p ++ ")</li>")

/-- One duplicate group's `<li>` with its nested member list
(`filemail.py` line 148). -/
def renderDupGroup (k : String × Nat) (ms : List FileRecord) : Option String :=
  match renderAll renderDupMember ms with
  | none => none
  | some items =>
    some ("<li>" ++ k.1 ++ " (" ++ toString k.2 ++ " bytes):<ul>"
      ++ String.join items ++ "</ul></li>")

/-- The duplicate-files section (`filemail.py` line 148): only groups
with more than one member are rendered, in dictionary order. -/
def renderDupSection (gs : List ((String × Nat) × List FileRecord)) : Option String :=
  match renderAll (fun g => renderDupGroup g.1 g.2) (gs.filter fun g => decide (1 < g.2.length)) with
  | none => none
  | some items => some (String.join items)

/-- The report f-string of `filemail.py` `main` (lines 134-152) — the
renderer of the spec.  A `KeyError`/`IndexError` raised while the
f-string evaluates makes the whole construction fail (`none`). -/
def report (large_files old_docs : List FileRecord)
    (file_groups : List ((String × Nat) × List FileRecord)) : Option String :=
  match renderAll renderLargeFile large_files with
  | none => none
  | some largeItems =>
    match renderDupSection file_groups with
    | none => none
    | some dupSection =>
      some ("\n    <html>\n      <body>\n        <h1>Google Drive Report</h1>\n        <h2>Large Files (over 10MB) not modified for 12 months:</h2>\n        <ul>\n          "
        ++ String.join largeItems
        ++ "\n        </ul>\n        <h2>Google Docs not modified for 24 months:</h2>\n        <ul>\n          "
        ++ String.join (old_docs.map renderOldDoc)
        ++ "\n        </ul>\n        <h2>Duplicate Files (over 10MB):</h2>\n        <ul>\n          "
        ++ dupSection
        ++ "\n        </ul>\n      </body>\n    </html>\n    ")

/-- One `<li>` of the old-docs section of `fm2.py` (line 119):
`file['webViewLink']` raises `KeyError` when the key is absent. -/
def renderOldDocFm2 (f : FileRecord) : Option String :=
  match f.webViewLink with
  | none => none
  | some link =>
    some ("<li><a href=\x27" ++ link ++ "\x27>" ++ f.name ++ "</a> (last modified "
      ++ f.modifiedTime ++ ")</li>")

/-- The report f-string of `fm2.py` `main` (lines 108-123): a
large-files section (also reading `file['size']`) and an old-docs
section reading `file['webViewLink']`; no duplicates section. -/
def report_fm2 (large_files old_docs : List FileRecord) : Option String :=
  match renderAll renderLargeFile large_files with
  | none => none
  | some largeItems =>
    match renderAll renderOldDocFm2 old_docs with
    | none => none
    | some oldItems =>
      some ("\n    <html>\n      <body>\n        <h1>Google Drive Report</h1>\n        <h2>Large Files (over 20MB) not modified for 12 months:</h2>\n        <h3>Limited to a fetch of 100 files </h3>\n        <ul>\n          "
        ++ String.join largeItems
        ++ "\n        </ul>\n        <h2>Google Docs not modified for 24 months:</h2>\n        <ul>\n          "
        ++ String.join oldItems
        ++ "\n        </ul>\n      </body>\n    </html>\n    ")

/-- What `send_email` logs during one run. -/
structure MailLog where
  messageId : Option String
  errorLogged : Option String
deriving Repr, DecidableEq

/-- `send_email` of `filemail.py` (lines 82-92) as a function of the
single transport outcome of `.execute()`: on success (`.ok`, carrying
the returned message id) it logs `Message Id: ...`; on an `HttpError`
(`.error`) it logs the error message and returns normally.  The code
makes exactly one transport request and catches the error — no retry,
no exception escapes. -/
def send_email (outcome : Except String String) : MailLog :=
  match outcome with
  | .ok msgId => ⟨some msgId, none⟩
  | .error e => ⟨none, some ("An error occurred while sending email: " ++ e)⟩

/-! ### Basic lemmas about the fetch loops -/

theorem fetchPageFiles_eq_fm2 (sf : Option Nat) (limit : Nat) (fs : List FileRecord) :
    ∀ acc count, fetchPageFiles sf limit fs acc count = fetchPageFilesFm2 sf limit fs acc count := by
  induction fs with
  | nil => intro acc count; rfl
  | cons f fs ih =>
    intro acc count
    have hs : skipRecord sf f = skipRecordFm2 sf f := rfl
    simp only [fetchPageFiles, fetchPageFilesFm2, hs]
    by_cases h : skipRecordFm2 sf f
    · simp only [h, if_true]
      exact ih acc count
    · simp only [h, Bool.false_eq_true, if_false]
      by_cases h2 : limit ≤ count + 1
      · simp only [h2, if_true]
      · simp only [h2, if_false]
        exact ih (acc ++ [f]) (count + 1)

theorem fetchFilesLoop_eq_fm2 (sf : Option Nat) (limit : Nat) (rs : List (Option Page)) :
    ∀ acc count, fetchFilesLoop sf limit rs acc count = fetchFilesLoopFm2 sf limit rs acc count := by
  induction rs with
  | nil => intro acc count; rfl
  | cons r rest ih =>
    intro acc count
    cases r with
    | none => rfl
    | some pg =>
      simp only [fetchFilesLoop, fetchFilesLoopFm2, fetchPageFiles_eq_fm2]
      by_cases h : (fetchPageFilesFm2 sf limit pg.files acc count).2.2
      · simp only [h, if_true]
      · simp only [h, Bool.false_eq_true, if_false]
        cases htok : pg.nextPageToken with
        | none => rfl
        | some tok =>
          by_cases he : tok = ""
          · simp only [he, if_true]
          · simp only [he, if_false]
            exact ih _ _

/-- C10: for every sequence of page responses, size filter and
explicitly supplied limit, the `fetch_files` of `filemail.py` and the
`fetch_files` of `fm2.py` return the same sequence of records; the two
differ only in their default limit, the fields requested from the
listing API, and logging. -/
theorem C10_fetch_files_equivalent (responses : List (Option Page))
    (size_filter : Option Nat) (limit : Nat) :
    fetch_files responses size_filter limit = fetch_files_fm2 responses size_filter limit :=
  fetchFilesLoop_eq_fm2 size_filter limit responses [] 0

theorem skipRecord_zero (f : FileRecord) : skipRecord (some 0) f = false := by
  simp [skipRecord]

theorem fetchPageFiles_zero_filter (limit : Nat) (fs : List FileRecord) :
    ∀ acc count, fetchPageFiles (some 0) limit fs acc count = fetchPageFiles none limit fs acc count := by
  induction fs with
  | nil => intro acc count; rfl
  | cons f fs ih =>
    intro acc count
    have hn : skipRecord none f = false := rfl
    simp only [fetchPageFiles, skipRecord_zero, hn, Bool.false_eq_true, if_false]
    by_cases h2 : limit ≤ count + 1
    · simp only [h2, if_true]
    · simp only [h2, if_false]
      exact ih (acc ++ [f]) (count + 1)

theorem fetchFilesLoop_zero_filter (limit : Nat) (rs : List (Option Page)) :
    ∀ acc count, fetchFilesLoop (some 0) limit rs acc count = fetchFilesLoop none limit rs acc count := by
  induction rs with
  | nil => intro acc count; rfl
  | cons r rest ih =>
    intro acc count
    cases r with
    | none => rfl
    | some pg =>
      simp only [fetchFilesLoop, fetchPageFiles_zero_filter]
      by_cases h : (fetchPageFiles none limit pg.files acc count).2.2
      · simp only [h, if_true]
      · simp only [h, Bool.false_eq_true, if_false]
        cases pg.nextPageToken with
        | none => rfl
        | some tok =>
          by_cases he : tok = ""
          · simp only [he, if_true]
          · simp only [he, if_false]
            exact ih _ _

/-- C9: calling `fetch_files` with `size_filter = 0` applies no size
filter at all — the result on any sequence of page responses is exactly
the result with no size filter supplied (so records of size 0 are
included too). -/
theorem C9_zero_filter_disabled (responses : List (Option Page)) (limit : Nat) :
    fetch_files responses (some 0) limit = fetch_files responses none limit :=
  fetchFilesLoop_zero_filter limit responses [] 0

theorem fetchFilesLoop_stops_at_failure (sf : Option Nat) (limit : Nat)
    (rest : List (Option Page)) (rs : List (Option Page)) :
    ∀ acc count, fetchFilesLoop sf limit (rs ++ none :: rest) acc count =
      fetchFilesLoop sf limit (rs ++ [none]) acc count := by
  induction rs with
  | nil => intro acc count; rfl
  | cons r rs ih =>
    intro acc count
    cases r with
    | none => rfl
    | some pg =>
      simp only [List.cons_append, fetchFilesLoop]
      by_cases h : (fetchPageFiles sf limit pg.files acc count).2.2
      · simp only [h, if_true]
      · simp only [h, Bool.false_eq_true, if_false]
        cases pg.nextPageToken with
        | none => rfl
        | some tok =>
          by_cases he : tok = ""
          · simp only [he, if_true]
          · simp only [he, if_false]
            exact ih _ _

/-- C5: a failed page request ends the fetch without raising: a failure
on the very first page yields the empty sequence, and a failure after
some pages yields exactly what was accumulated up to the failure — the
responses after the failing one are never consulted. -/
theorem C5_failure_returns_partial (size_filter : Option Nat) (limit : Nat) :
    (∀ rest : List (Option Page), fetch_files (none :: rest) size_filter limit = []) ∧
    (∀ rs rest : List (Option Page),
      fetch_files (rs ++ none :: rest) size_filter limit =
        fetch_files (rs ++ [none]) size_filter limit) := by
  constructor
  · intro rest; rfl
  · intro rs rest
    exact fetchFilesLoop_stops_at_failure size_filter limit rest rs [] 0

/-- C8: when the mail transport reports an error, `send_email` logs the
error and returns normally (no retry is possible: the code makes a
single transport request), and no message identifier is logged; a
message identifier is logged exactly when the transport succeeded. -/
theorem C8_send_failure_logged (e : String) (o : Except String String) (i : String) :
    (send_email (Except.error e)).messageId = none ∧
    (send_email (Except.error e)).errorLogged =
      some ("An error occurred while sending email: " ++ e) ∧
    ((send_email o).messageId = some i ↔ o = Except.ok i) := by
  refine ⟨rfl, rfl, ?_⟩
  cases o with
  | ok m => simp [send_email]
  | error err => simp [send_email]

/-- C7: the report renderer is deterministic — two invocations on equal
section data (equal large-file list, old-docs list and duplicate
groups, in equal order) produce identical documents. -/
theorem C7_render_deterministic (l1 o1 : List FileRecord)
    (g1 : List ((String × Nat) × List FileRecord)) (l2 o2 : List FileRecord)
    (g2 : List ((String × Nat) × List FileRecord))
    (hl : l1 = l2) (ho : o1 = o2) (hg : g1 = g2) :
    report l1 o1 g1 = report l2 o2 g2 := by
  rw [hl, ho, hg]

theorem C7_render_deterministic_witness :
    report [] [] [] = report [] [] [] :=
  C7_render_deterministic [] [] [] [] [] [] rfl rfl rfl

/-- Counterexample to C1 as stated: `process_duplicate_files` reads
`file['size']` unconditionally, so a record without a size field makes
grouping fail (KeyError) instead of being keyed with size 0. -/
theorem C1_counterexample :
    process_duplicate_files [⟨"f1", "a", none, "t1", none, none⟩] = none := rfl

/-- Counterexample to C2 as stated: a duplicate-group member whose
`parents` list is present but empty makes the renderer fail
(`['unknown']` is only the default for an absent key; `[][0]` raises
IndexError), rather than yielding the "unknown" placeholder. -/
theorem C2_counterexample :
    report [] []
      [(("a", 5), [⟨"f1", "a", some 5, "t1", some [], none⟩,
                   ⟨"f2", "a", some 5, "t2", some [], none⟩])] = none := rfl

/-- Counterexample to C3 as stated: with `limit = 0` the fetch appends
the first accepted record before checking the count, so it returns one
record — more than `limit`. -/
theorem C3_counterexample :
    (fetch_files [some ⟨[⟨"f1", "a", some 5, "t1", none, none⟩], none⟩] none 0).length = 1 ∧
    ¬ (fetch_files [some ⟨[⟨"f1", "a", some 5, "t1", none, none⟩], none⟩] none 0).length ≤ 0 := by
  decide

/-- Counterexample to C4 as stated: supplying `size_filter = 0` (falsy
in Python) disables the filter, so a record of size 0 — which is ≤ the
threshold — is returned anyway. -/
theorem C4_counterexample :
    (⟨"f1", "a", some 0, "t1", none, none⟩ : FileRecord) ∈
      fetch_files [some ⟨[⟨"f1", "a", some 0, "t1", none, none⟩], none⟩] (some 0) 5 ∧
    (⟨"f1", "a", some 0, "t1", none, none⟩ : FileRecord).size.getD 0 ≤ 0 := by
  decide

/-! ### Counting lemmas for the fetch loops -/

theorem fetchPageFiles_spec (sf : Option Nat) (limit : Nat) (fs : List FileRecord) :
    ∀ acc count, count < limit →
      (fetchPageFiles sf limit fs acc count).2.1 ≤ limit ∧
      ((fetchPageFiles sf limit fs acc count).2.2 = false →
        (fetchPageFiles sf limit fs acc count).2.1 < limit) ∧
      (fetchPageFiles sf limit fs acc count).1.length + count =
        (fetchPageFiles sf limit fs acc count).2.1 + acc.length := by
  induction fs with
  | nil =>
    intro acc count h
    simp only [fetchPageFiles]
    exact ⟨Nat.le_of_lt h, fun _ => h, by omega⟩
  | cons f fs ih =>
    intro acc count h
    simp only [fetchPageFiles]
    by_cases hskip : skipRecord sf f
    · simp only [hskip, if_true]
      exact ih acc count h
    · simp only [hskip, Bool.false_eq_true, if_false]
      by_cases hl : limit ≤ count + 1
      · simp only [hl, if_true]
        refine ⟨by omega, fun hc => by simp at hc, ?_⟩
        simp only [List.length_append, List.length_singleton]
        omega
      · simp only [hl, if_false]
        obtain ⟨h1, h2, h3⟩ := ih (acc ++ [f]) (count + 1) (by omega)
        refine ⟨h1, h2, ?_⟩
        simp only [List.length_append, List.length_singleton] at h3
        omega

theorem fetchFilesLoop_length_le (sf : Option Nat) (limit : Nat) (rs : List (Option Page)) :
    ∀ acc count, acc.length = count → count < limit →
      (fetchFilesLoop sf limit rs acc count).length ≤ limit := by
  induction rs with
  | nil =>
    intro acc count hlen h
    simp only [fetchFilesLoop]
    omega
  | cons r rest ih =>
    intro acc count hlen h
    cases r with
    | none =>
      simp only [fetchFilesLoop]
      omega
    | some pg =>
      obtain ⟨h1, h2, h3⟩ := fetchPageFiles_spec sf limit pg.files acc count h
      have hlen' : (fetchPageFiles sf limit pg.files acc count).1.length =
          (fetchPageFiles sf limit pg.files acc count).2.1 := by omega
      simp only [fetchFilesLoop]
      by_cases hhit : (fetchPageFiles sf limit pg.files acc count).2.2
      · simp only [hhit, if_true]
        omega
      · simp only [hhit, Bool.false_eq_true, if_false]
        have hlt := h2 (by simpa using hhit)
        cases pg.nextPageToken with
        | none => simpa using by omega
        | some tok =>
          by_cases he : tok = ""
          · simp only [he, if_true]
            omega
          · simp only [he, if_false]
            exact ih _ _ hlen' hlt

theorem fetchFilesLoop_full_stops (sf : Option Nat) (limit : Nat)
    (more : List (Option Page)) (rs : List (Option Page)) :
    ∀ acc count, acc.length = count → count < limit →
      (fetchFilesLoop sf limit rs acc count).length = limit →
      fetchFilesLoop sf limit (rs ++ more) acc count = fetchFilesLoop sf limit rs acc count := by
  induction rs with
  | nil =>
    intro acc count hlen h hfull
    exfalso
    simp only [fetchFilesLoop] at hfull
    omega
  | cons r rest ih =>
    intro acc count hlen h hfull
    cases r with
    | none => rfl
    | some pg =>
      obtain ⟨h1, h2, h3⟩ := fetchPageFiles_spec sf limit pg.files acc count h
      have hlen' : (fetchPageFiles sf limit pg.files acc count).1.length =
          (fetchPageFiles sf limit pg.files acc count).2.1 := by omega
      simp only [List.cons_append, fetchFilesLoop] at hfull ⊢
      by_cases hhit : (fetchPageFiles sf limit pg.files acc count).2.2
      · simp only [hhit, if_true]
      · simp only [hhit, Bool.false_eq_true, if_false] at hfull ⊢
        have hlt := h2 (by simpa using hhit)
        cases htok : pg.nextPageToken with
        | none =>
          simp only [htok] at hfull
          exfalso
          omega
        | some tok =>
          simp only [htok] at hfull ⊢
          by_cases he : tok = ""
          · simp only [he, if_true] at hfull
            exfalso
            omega
          · simp only [he, if_false] at hfull ⊢
            exact ih _ _ hlen' hlt hfull

theorem fetchPageFiles_hit_ignores_rest (sf : Option Nat) (limit : Nat) (fs : List FileRecord) :
    ∀ (extra acc : List FileRecord) (count : Nat),
      (fetchPageFiles sf limit fs acc count).2.2 = true →
      fetchPageFiles sf limit (fs ++ extra) acc count = fetchPageFiles sf limit fs acc count := by
  induction fs with
  | nil =>
    intro extra acc count hhit
    simp [fetchPageFiles] at hhit
  | cons f fs ih =>
    intro extra acc count hhit
    simp only [fetchPageFiles, List.cons_append] at hhit ⊢
    by_cases hskip : skipRecord sf f
    · simp only [hskip, if_true] at hhit ⊢
      exact ih extra acc count hhit
    · simp only [hskip, Bool.false_eq_true, if_false] at hhit ⊢
      by_cases hl : limit ≤ count + 1
      · simp only [hl, if_true]
      · simp only [hl, if_false] at hhit ⊢
        exact ih extra _ _ hhit

/-- C3 (amended): for every positive limit, `fetch_files` returns at
most `limit` records; once the running count reaches `limit` it
returns immediately — the remaining records of the current page are
ignored and no further page is requested.  (With `limit = 0` the code
appends the first accepted record before checking the count and so
returns one record; see the counterexample.) -/
theorem C3_amended_limit_respected (size_filter : Option Nat) (limit : Nat) (h : 1 ≤ limit) :
    (∀ responses, (fetch_files responses size_filter limit).length ≤ limit) ∧
    (∀ responses more, (fetch_files responses size_filter limit).length = limit →
      fetch_files (responses ++ more) size_filter limit =
        fetch_files responses size_filter limit) ∧
    (∀ fs extra acc count, (fetchPageFiles size_filter limit fs acc count).2.2 = true →
      fetchPageFiles size_filter limit (fs ++ extra) acc count =
        fetchPageFiles size_filter limit fs acc count) := by
  refine ⟨?_, ?_, ?_⟩
  · intro rs
    exact fetchFilesLoop_length_le size_filter limit rs [] 0 rfl (by omega)
  · intro rs more hfull
    exact fetchFilesLoop_full_stops size_filter limit more rs [] 0 rfl (by omega) hfull
  · intro fs extra acc count hhit
    exact fetchPageFiles_hit_ignores_rest size_filter limit fs extra acc count hhit

theorem C3_amended_limit_respected_witness :
    (fetch_files [some ⟨[⟨"f1", "a", some 5, "t1", none, none⟩,
      ⟨"f2", "b", some 6, "t2", none, none⟩,
      ⟨"f3", "c", some 7, "t3", none, none⟩], none⟩] none 2).length ≤ 2 :=
  (C3_amended_limit_respected none 2 (by decide)).1
    [some ⟨[⟨"f1", "a", some 5, "t1", none, none⟩,
      ⟨"f2", "b", some 6, "t2", none, none⟩,
      ⟨"f3", "c", some 7, "t3", none, none⟩], none⟩]

/-! ### Size-filter lemmas -/

theorem skipRecord_pos (sf : Nat) (hsf : 0 < sf) (f : FileRecord) :
    skipRecord (some sf) f = decide (f.size.getD 0 ≤ sf) := by
  simp [skipRecord, Nat.pos_iff_ne_zero.mp hsf]

theorem fetchPageFiles_members_big (sf : Nat) (hsf : 0 < sf) (limit : Nat)
    (fs : List FileRecord) :
    ∀ acc count, (∀ g ∈ acc, sf < g.size.getD 0) →
      ∀ f ∈ (fetchPageFiles (some sf) limit fs acc count).1, sf < f.size.getD 0 := by
  induction fs with
  | nil =>
    intro acc count hacc
    simpa [fetchPageFiles] using hacc
  | cons f fs ih =>
    intro acc count hacc
    simp only [fetchPageFiles]
    by_cases hskip : skipRecord (some sf) f
    · simp only [hskip, if_true]
      exact ih acc count hacc
    · have hbig : sf < f.size.getD 0 := by
        rw [skipRecord_pos sf hsf] at hskip
        simpa using hskip
      have hacc' : ∀ g ∈ acc ++ [f], sf < g.size.getD 0 := by
        intro g hg
        rcases List.mem_append.mp hg with hg | hg
        · exact hacc g hg
        · rcases List.mem_singleton.mp hg with rfl
          exact hbig
      simp only [hskip, Bool.false_eq_true, if_false]
      by_cases hl : limit ≤ count + 1
      · simp only [hl, if_true]
        exact hacc'
      · simp only [hl, if_false]
        exact ih _ _ hacc'

theorem fetchFilesLoop_members_big (sf : Nat) (hsf : 0 < sf) (limit : Nat)
    (rs : List (Option Page)) :
    ∀ acc count, (∀ g ∈ acc, sf < g.size.getD 0) →
      ∀ f ∈ fetchFilesLoop (some sf) limit rs acc count, sf < f.size.getD 0 := by
  induction rs with
  | nil =>
    intro acc count hacc
    simpa [fetchFilesLoop] using hacc
  | cons r rest ih =>
    intro acc count hacc
    cases r with
    | none => simpa [fetchFilesLoop] using hacc
    | some pg =>
      have hpage := fetchPageFiles_members_big sf hsf limit pg.files acc count hacc
      simp only [fetchFilesLoop]
      by_cases hhit : (fetchPageFiles (some sf) limit pg.files acc count).2.2
      · simp only [hhit, if_true]
        exact hpage
      · simp only [hhit, Bool.false_eq_true, if_false]
        cases pg.nextPageToken with
        | none => exact hpage
        | some tok =>
          by_cases he : tok = ""
          · simp only [he, if_true]
            exact hpage
          · simp only [he, if_false]
            exact ih _ _ hpage

/-- A page with the records at or below the threshold removed: the
records a positive size filter would skip. -/
def dropSmall (sf : Nat) (pg : Page) : Page :=
  ⟨pg.files.filter fun f => decide (sf < f.size.getD 0), pg.nextPageToken⟩

theorem fetchPageFiles_filter_eq (sf : Nat) (hsf : 0 < sf) (limit : Nat)
    (fs : List FileRecord) :
    ∀ acc count, fetchPageFiles (some sf) limit fs acc count =
      fetchPageFiles none limit (fs.filter fun f => decide (sf < f.size.getD 0)) acc count := by
  induction fs with
  | nil => intro acc count; rfl
  | cons f fs ih =>
    intro acc count
    by_cases hbig : sf < f.size.getD 0
    · have hskip : skipRecord (some sf) f = false := by
        rw [skipRecord_pos sf hsf]
        simpa using Nat.not_le_of_lt hbig
      have hnone : skipRecord none f = false := rfl
      rw [List.filter_cons_of_pos (by simpa using hbig)]
      simp only [fetchPageFiles, hskip, hnone, Bool.false_eq_true, if_false]
      by_cases hl : limit ≤ count + 1
      · simp only [hl, if_true]
      · simp only [hl, if_false]
        exact ih _ _
    · have hskip : skipRecord (some sf) f = true := by
        rw [skipRecord_pos sf hsf]
        simpa using Nat.le_of_not_lt hbig
      rw [List.filter_cons_of_neg (by simpa using hbig)]
      simp only [fetchPageFiles, hskip, if_true]
      exact ih _ _

theorem fetchFilesLoop_filter_eq (sf : Nat) (hsf : 0 < sf) (limit : Nat)
    (rs : List (Option Page)) :
    ∀ acc count, fetchFilesLoop (some sf) limit rs acc count =
      fetchFilesLoop none limit (rs.map (Option.map (dropSmall sf))) acc count := by
  induction rs with
  | nil => intro acc count; rfl
  | cons r rest ih =>
    intro acc count
    cases r with
    | none => rfl
    | some pg =>
      simp only [List.map_cons, Option.map_some, fetchFilesLoop, dropSmall,
        ← fetchPageFiles_filter_eq sf hsf limit pg.files acc count]
      by_cases hhit : (fetchPageFiles (some sf) limit pg.files acc count).2.2
      · simp only [hhit, if_true]
      · simp only [hhit, Bool.false_eq_true, if_false]
        cases pg.nextPageToken with
        | none => rfl
        | some tok =>
          by_cases he : tok = ""
          · simp only [he, if_true]
          · simp only [he, if_false]
            exact ih _ _

/-- C4 (amended): when a positive size filter is supplied, every record
whose size (defaulting to 0 when absent) is at most the threshold is
excluded and not counted toward the limit — fetching with the filter
equals fetching the pre-filtered pages with no filter at all — and
every returned record's size strictly exceeds the threshold.  (A size
filter of 0 is falsy in Python and disables the filter; see the
counterexample.) -/
theorem C4_amended_size_filter (sf : Nat) (h : 0 < sf) :
    (∀ responses limit f, f ∈ fetch_files responses (some sf) limit →
      sf < f.size.getD 0) ∧
    (∀ responses limit, fetch_files responses (some sf) limit =
      fetch_files (responses.map (Option.map (dropSmall sf))) none limit) := by
  constructor
  · intro rs limit f hf
    exact fetchFilesLoop_members_big sf h limit rs [] 0 (by simp) f hf
  · intro rs limit
    exact fetchFilesLoop_filter_eq sf h limit rs [] 0

theorem C4_amended_size_filter_witness :
    1 < (⟨"f1", "a", some 5, "t1", none, none⟩ : FileRecord).size.getD 0 :=
  (C4_amended_size_filter 1 (by decide)).1
    [some ⟨[⟨"f0", "z", some 1, "t0", none, none⟩,
            ⟨"f1", "a", some 5, "t1", none, none⟩], none⟩] 5
    ⟨"f1", "a", some 5, "t1", none, none⟩ (by decide)

/-! ### Lemmas about duplicate grouping -/

theorem insertRecord_keys (k : String × Nat) (f : FileRecord) :
    ∀ acc : List ((String × Nat) × List FileRecord),
      (insertRecord acc k f).map Prod.fst =
        if k ∈ acc.map Prod.fst then acc.map Prod.fst else acc.map Prod.fst ++ [k] := by
  intro acc
  induction acc with
  | nil => simp [insertRecord]
  | cons g rest ih =>
    obtain ⟨k0, ms⟩ := g
    by_cases hk : k0 = k
    · subst hk
      simp [insertRecord]
    · simp only [insertRecord] at *
      rw [if_neg hk]
      simp only [List.map_cons, ih]
      by_cases hmem : k ∈ rest.map Prod.fst
      · simp [hmem, Ne.symm hk]
      · simp [hmem, Ne.symm hk]

theorem insertRecord_keys_nodup (k : String × Nat) (f : FileRecord)
    (acc : List ((String × Nat) × List FileRecord))
    (h : (acc.map Prod.fst).Nodup) : ((insertRecord acc k f).map Prod.fst).Nodup := by
  rw [insertRecord_keys]
  by_cases hmem : k ∈ acc.map Prod.fst
  · simpa [hmem] using h
  · simp only [hmem, if_false]
    rw [List.nodup_append]
    refine ⟨h, List.nodup_singleton _, ?_⟩
    intro a ha hak
    rw [List.mem_singleton] at hak
    subst hak
    exact hmem ha

theorem mem_insertRecord_nodup (k : String × Nat) (f : FileRecord) :
    ∀ acc : List ((String × Nat) × List FileRecord), (acc.map Prod.fst).Nodup →
      ∀ k2 ms, (k2, ms) ∈ insertRecord acc k f →
        (k2 ≠ k ∧ (k2, ms) ∈ acc) ∨
        (k2 = k ∧ ∃ ms0, ms = ms0 ++ [f] ∧ (k, ms0) ∈ acc) ∨
        (k2 = k ∧ ms = [f] ∧ k ∉ acc.map Prod.fst) := by
  intro acc
  induction acc with
  | nil =>
    intro _ k2 ms hmem
    simp only [insertRecord, List.mem_singleton, Prod.mk.injEq] at hmem
    exact Or.inr (Or.inr ⟨hmem.1, hmem.2, by simp⟩)
  | cons g rest ih =>
    obtain ⟨k0, ms0⟩ := g
    intro hnodup k2 ms hmem
    rw [List.map_cons, List.nodup_cons] at hnodup
    obtain ⟨hk0notin, hnodup2⟩ := hnodup
    by_cases hk : k0 = k
    · simp only [insertRecord] at hmem
      rw [if_pos hk] at hmem
      subst hk
      rcases List.mem_cons.mp hmem with heq | htail
      · simp only [Prod.mk.injEq] at heq
        exact Or.inr (Or.inl ⟨heq.1, ms0, heq.2, List.mem_cons_self _ _⟩)
      · by_cases hk2 : k2 = k0
        · exact absurd (List.mem_map.mpr ⟨(k2, ms), htail, hk2⟩) hk0notin
        · exact Or.inl ⟨hk2, List.mem_cons_of_mem _ htail⟩
    · simp only [insertRecord] at hmem
      rw [if_neg hk] at hmem
      rcases List.mem_cons.mp hmem with heq | htail
      · simp only [Prod.mk.injEq] at heq
        obtain ⟨h1, h2⟩ := heq
        subst h1
        subst h2
        exact Or.inl ⟨hk, List.mem_cons_self _ _⟩
      · rcases ih hnodup2 k2 ms htail with ⟨hne, hmem2⟩ | ⟨rfl, ms1, hms, hmem2⟩ | ⟨rfl, hms, hnot⟩
        · exact Or.inl ⟨hne, List.mem_cons_of_mem _ hmem2⟩
        · exact Or.inr (Or.inl ⟨rfl, ms1, hms, List.mem_cons_of_mem _ hmem2⟩)
        · refine Or.inr (Or.inr ⟨rfl, hms, ?_⟩)
          simp only [List.map_cons, List.mem_cons]
          rintro (hc | hc)
          · exact hk hc.symm
          · exact hnot hc

theorem insertRecord_member_origin (k : String × Nat) (f : FileRecord) :
    ∀ acc : List ((String × Nat) × List FileRecord), ∀ k2 ms g,
      (k2, ms) ∈ insertRecord acc k f → g ∈ ms →
        (∃ ms0, (k2, ms0) ∈ acc ∧ g ∈ ms0) ∨ (g = f ∧ k2 = k) := by
  intro acc
  induction acc with
  | nil =>
    intro k2 ms g hmem hg
    simp only [insertRecord, List.mem_singleton, Prod.mk.injEq] at hmem
    obtain ⟨h1, h2⟩ := hmem
    subst h2
    rw [List.mem_singleton] at hg
    exact Or.inr ⟨hg, h1⟩
  | cons p rest ih =>
    obtain ⟨k0, ms0⟩ := p
    intro k2 ms g hmem hg
    by_cases hk : k0 = k
    · simp only [insertRecord] at hmem
      rw [if_pos hk] at hmem
      rcases List.mem_cons.mp hmem with heq | htail
      · simp only [Prod.mk.injEq] at heq
        obtain ⟨h1, h2⟩ := heq
        subst h2
        rcases List.mem_append.mp hg with hg0 | hgf
        · exact Or.inl ⟨ms0, by rw [h1]; exact List.mem_cons_self _ _, hg0⟩
        · rw [List.mem_singleton] at hgf
          exact Or.inr ⟨hgf, h1.trans hk⟩
      · exact Or.inl ⟨ms, List.mem_cons_of_mem _ htail, hg⟩
    · simp only [insertRecord] at hmem
      rw [if_neg hk] at hmem
      rcases List.mem_cons.mp hmem with heq | htail
      · simp only [Prod.mk.injEq] at heq
        obtain ⟨h1, h2⟩ := heq
        subst h2
        exact Or.inl ⟨ms, by rw [h1]; exact List.mem_cons_self _ _, hg⟩
      · rcases ih k2 ms g htail hg with ⟨ms1, hmem1, hg1⟩ | hgf
        · exact Or.inl ⟨ms1, List.mem_cons_of_mem _ hmem1, hg1⟩
        · exact Or.inr hgf

theorem insertRecord_flatten_perm (k : String × Nat) (f : FileRecord) :
    ∀ acc : List ((String × Nat) × List FileRecord),
      ((insertRecord acc k f).map Prod.snd).flatten.Perm
        ((acc.map Prod.snd).flatten ++ [f]) := by
  intro acc
  induction acc with
  | nil => simp [insertRecord]
  | cons g rest ih =>
    obtain ⟨k0, ms0⟩ := g
    by_cases hk : k0 = k
    · simp only [insertRecord]
      rw [if_pos hk]
      simp only [List.map_cons, List.flatten_cons]
      have h1 : (ms0 ++ [f]) ++ (rest.map Prod.snd).flatten =
          ms0 ++ ([f] ++ (rest.map Prod.snd).flatten) := by
        rw [List.append_assoc]
      have h2 : ([f] ++ (rest.map Prod.snd).flatten).Perm
          ((rest.map Prod.snd).flatten ++ [f]) := List.perm_append_comm
      have h3 : (ms0 ++ ([f] ++ (rest.map Prod.snd).flatten)).Perm
          (ms0 ++ ((rest.map Prod.snd).flatten ++ [f])) := List.Perm.append_left ms0 h2
      rw [h1]
      have h4 : ms0 ++ ((rest.map Prod.snd).flatten ++ [f]) =
          (ms0 ++ (rest.map Prod.snd).flatten) ++ [f] := by
        rw [List.append_assoc]
      rw [h4] at h3
      exact h3
    · simp only [insertRecord]
      rw [if_neg hk]
      simp only [List.map_cons, List.flatten_cons]
      have h3 : (ms0 ++ ((insertRecord rest k f).map Prod.snd).flatten).Perm
          (ms0 ++ ((rest.map Prod.snd).flatten ++ [f])) := List.Perm.append_left ms0 ih
      have h4 : ms0 ++ ((rest.map Prod.snd).flatten ++ [f]) =
          (ms0 ++ (rest.map Prod.snd).flatten) ++ [f] := by
        rw [List.append_assoc]
      rw [h4] at h3
      exact h3

theorem groupRecords_none_iff (files : List FileRecord) :
    ∀ acc, groupRecords files acc = none ↔ ∃ f ∈ files, f.size = none := by
  induction files with
  | nil =>
    intro acc
    simp [groupRecords]
  | cons f fs ih =>
    intro acc
    cases hs : f.size with
    | none =>
      simp only [groupRecords, hs]
      constructor
      · intro _
        exact ⟨f, List.mem_cons_self _ _, hs⟩
      · intro _
        trivial
    | some s =>
      simp only [groupRecords, hs]
      rw [ih]
      constructor
      · rintro ⟨g, hg, hgs⟩
        exact ⟨g, List.mem_cons_of_mem f hg, hgs⟩
      · rintro ⟨g, hg, hgs⟩
        rcases List.mem_cons.mp hg with rfl | hg
        · rw [hs] at hgs
          cases hgs
        · exact ⟨g, hg, hgs⟩

theorem groupRecords_perm (files : List FileRecord) :
    ∀ acc gs, groupRecords files acc = some gs →
      ((gs.map Prod.snd).flatten).Perm ((acc.map Prod.snd).flatten ++ files) := by
  induction files with
  | nil =>
    intro acc gs hsome
    simp only [groupRecords, Option.some.injEq] at hsome
    subst hsome
    simp
  | cons f fs ih =>
    intro acc gs hsome
    cases hs : f.size with
    | none =>
      simp only [groupRecords, hs] at hsome
      cases hsome
    | some s =>
      simp only [groupRecords, hs] at hsome
      have h1 := ih (insertRecord acc (f.name, s) f) gs hsome
      have h2 := (insertRecord_flatten_perm (f.name, s) f acc).append_right fs
      have h3 := h1.trans h2
      have h4 : ((acc.map Prod.snd).flatten ++ [f]) ++ fs =
          (acc.map Prod.snd).flatten ++ (f :: fs) := by
        rw [List.append_assoc, List.singleton_append]
      rw [h4] at h3
      exact h3

theorem groupRecords_spec (files : List FileRecord) :
    ∀ processed acc gs,
      groupRecords files acc = some gs →
      (acc.map Prod.fst).Nodup →
      (∀ k ms, (k, ms) ∈ acc → ms = processed.filter fun g => decide (recKey g = some k)) →
      (∀ k : String × Nat, k ∉ acc.map Prod.fst →
        processed.filter (fun g => decide (recKey g = some k)) = []) →
      ((gs.map Prod.fst).Nodup ∧
       ∀ k ms, (k, ms) ∈ gs →
         ms = (processed ++ files).filter fun g => decide (recKey g = some k)) := by
  induction files with
  | nil =>
    intro processed acc gs hsome hnodup hchar hout
    simp only [groupRecords, Option.some.injEq] at hsome
    subst hsome
    refine ⟨hnodup, ?_⟩
    intro k ms hmem
    simpa using hchar k ms hmem
  | cons f fs ih =>
    intro processed acc gs hsome hnodup hchar hout
    cases hs : f.size with
    | none =>
      simp only [groupRecords, hs] at hsome
      cases hsome
    | some s =>
      simp only [groupRecords, hs] at hsome
      have hkey : recKey f = some (f.name, s) := by simp [recKey, hs]
      have hchar2 : ∀ k ms, (k, ms) ∈ insertRecord acc (f.name, s) f →
          ms = (processed ++ [f]).filter fun g => decide (recKey g = some k) := by
        intro k ms hmem
        rcases mem_insertRecord_nodup (f.name, s) f acc hnodup k ms hmem with
          ⟨hne, hmem2⟩ | ⟨rfl, ms0, hms, hmem2⟩ | ⟨rfl, hms, hnot⟩
        · rw [hchar k ms hmem2, List.filter_append]
          have hsingle : [f].filter (fun g => decide (recKey g = some k)) = [] := by
            simp [List.filter_cons, hkey, Ne.symm hne]
          rw [hsingle, List.append_nil]
        · rw [hms, hchar _ ms0 hmem2, List.filter_append]
          have hsingle : [f].filter (fun g => decide (recKey g = some (f.name, s))) = [f] := by
            simp [List.filter_cons, hkey]
          rw [hsingle]
        · rw [hms, List.filter_append, hout _ hnot]
          have hsingle : [f].filter (fun g => decide (recKey g = some (f.name, s))) = [f] := by
            simp [List.filter_cons, hkey]
          rw [hsingle, List.nil_append]
      have hout2 : ∀ k : String × Nat, k ∉ (insertRecord acc (f.name, s) f).map Prod.fst →
          (processed ++ [f]).filter (fun g => decide (recKey g = some k)) = [] := by
        intro k hknot
        rw [insertRecord_keys] at hknot
        by_cases hin : (f.name, s) ∈ acc.map Prod.fst
        · rw [if_pos hin] at hknot
          have hne : k ≠ (f.name, s) := fun hkk => hknot (hkk ▸ hin)
          rw [List.filter_append, hout k hknot]
          simp [List.filter_cons, hkey, Ne.symm hne]
        · rw [if_neg hin] at hknot
          simp only [List.mem_append, List.mem_singleton, not_or] at hknot
          obtain ⟨h1, h2⟩ := hknot
          rw [List.filter_append, hout k h1]
          simp [List.filter_cons, hkey, Ne.symm h2]
      have hres := ih (processed ++ [f]) (insertRecord acc (f.name, s) f) gs hsome
        (insertRecord_keys_nodup _ _ _ hnodup) hchar2 hout2
      have heq : (processed ++ [f]) ++ fs = processed ++ (f :: fs) := by
        rw [List.append_assoc, List.singleton_append]
      rw [heq] at hres
      exact hres

theorem groupRecords_members (files : List FileRecord) :
    ∀ acc gs, groupRecords files acc = some gs →
      (∀ k ms g, (k, ms) ∈ acc → g ∈ ms → g.name = k.1 ∧ g.size = some k.2) →
      ∀ k ms g, (k, ms) ∈ gs → g ∈ ms → g.name = k.1 ∧ g.size = some k.2 := by
  induction files with
  | nil =>
    intro acc gs hsome hacc
    simp only [groupRecords, Option.some.injEq] at hsome
    subst hsome
    exact hacc
  | cons f fs ih =>
    intro acc gs hsome hacc
    cases hs : f.size with
    | none =>
      simp only [groupRecords, hs] at hsome
      cases hsome
    | some s =>
      simp only [groupRecords, hs] at hsome
      refine ih _ gs hsome ?_
      intro k ms g hmem hg
      rcases insertRecord_member_origin (f.name, s) f acc k ms g hmem hg with
        ⟨ms0, hmem0, hg0⟩ | ⟨rfl, rfl⟩
      · exact hacc k ms0 g hmem0 hg0
      · exact ⟨rfl, hs⟩

/-- C1 (amended): duplicate grouping keys each record by the exact pair
(name, size), but a record without a size field makes the call fail
(`file['size']` raises KeyError) instead of being keyed with a default
size of 0; hence two records both lacking a size are never merged into
a common group — the grouping call fails instead of grouping them. -/
theorem C1_amended_group_requires_size (files : List FileRecord) :
    (process_duplicate_files files = none ↔ ∃ f ∈ files, f.size = none) ∧
    (∀ gs k ms f, process_duplicate_files files = some gs → (k, ms) ∈ gs → f ∈ ms →
      f.name = k.1 ∧ f.size = some k.2) := by
  constructor
  · exact groupRecords_none_iff files []
  · intro gs k ms f hsome hmem hf
    refine groupRecords_members files [] gs hsome ?_ k ms f hmem hf
    intro k2 ms2 g hmem2 _
    exact absurd hmem2 (List.not_mem_nil _)

theorem C1_amended_group_requires_size_witness :
    process_duplicate_files [⟨"g1", "b", none, "t1", none, none⟩,
      ⟨"g2", "b", none, "t2", none, none⟩] = none :=
  (C1_amended_group_requires_size _).1.mpr
    ⟨⟨"g1", "b", none, "t1", none, none⟩, List.mem_cons_self _ _, rfl⟩

/-- C6: on an input sequence in which every record carries a size,
duplicate grouping is a partition: grouping succeeds, group keys are
distinct, each group's members are exactly the input records with that
(name, size) key in first-seen input order, the concatenation of all
groups is a permutation of the input (so each record lands in exactly
one group), and the caller's selection keeps exactly the groups with
more than one member. -/
theorem C6_group_is_partition (files : List FileRecord)
    (h : ∀ f ∈ files, f.size.isSome) :
    (process_duplicate_files files).isSome ∧
    ∀ gs, process_duplicate_files files = some gs →
      ((gs.map Prod.fst).Nodup ∧
       (∀ k ms, (k, ms) ∈ gs → ms = files.filter fun g => decide (recKey g = some k)) ∧
       ((gs.map Prod.snd).flatten.Perm files) ∧
       (∀ g ∈ files, ∃ k ms, (k, ms) ∈ gs ∧ g ∈ ms) ∧
       (∀ g k ms k2 ms2, (k, ms) ∈ gs → (k2, ms2) ∈ gs → g ∈ ms → g ∈ ms2 → k = k2) ∧
       (∀ ms, ms ∈ duplicate_files gs ↔ ms ∈ gs.map Prod.snd ∧ 1 < ms.length)) := by
  constructor
  · cases hp : process_duplicate_files files with
    | some gs => rfl
    | none =>
      obtain ⟨f, hf, hfs⟩ := (groupRecords_none_iff files []).mp hp
      have hsz := h f hf
      rw [hfs] at hsz
      simp at hsz
  · intro gs hsome
    obtain ⟨hnodup, hchar⟩ := groupRecords_spec files [] [] gs hsome (by simp)
      (fun k ms hm => absurd hm (List.not_mem_nil _)) (fun k _ => rfl)
    have hchar2 : ∀ k ms, (k, ms) ∈ gs →
        ms = files.filter fun g => decide (recKey g = some k) := by
      intro k ms hm
      simpa using hchar k ms hm
    have hperm : (gs.map Prod.snd).flatten.Perm files := by
      simpa using groupRecords_perm files [] gs hsome
    refine ⟨hnodup, hchar2, hperm, ?_, ?_, ?_⟩
    · intro g hg
      have hg2 : g ∈ (gs.map Prod.snd).flatten := hperm.mem_iff.mpr hg
      obtain ⟨l, hl, hgl⟩ := List.mem_flatten.mp hg2
      obtain ⟨p, hp, rfl⟩ := List.mem_map.mp hl
      exact ⟨p.1, p.2, by simpa using hp, hgl⟩
    · intro g k ms k2 ms2 h1 h2 hg1 hg2
      rw [hchar2 k ms h1] at hg1
      rw [hchar2 k2 ms2 h2] at hg2
      have r1 := of_decide_eq_true (List.mem_filter.mp hg1).2
      have r2 := of_decide_eq_true (List.mem_filter.mp hg2).2
      rw [r1] at r2
      exact Option.some.inj r2
    · intro ms
      simp [duplicate_files, List.mem_filter]

theorem C6_group_is_partition_witness :
    (process_duplicate_files [⟨"f1", "a", some 5, "t1", none, none⟩,
      ⟨"f2", "a", some 5, "t2", none, none⟩]).isSome :=
  (C6_group_is_partition _ (by decide)).1

/-! ### Renderer lemmas -/

theorem renderAll_isSome {α : Type} (r : α → Option String) :
    ∀ l : List α, (∀ a ∈ l, (r a).isSome) → (renderAll r l).isSome := by
  intro l
  induction l with
  | nil => intro _; rfl
  | cons x xs ih =>
    intro h
    have hx := h x (List.mem_cons_self _ _)
    have hxs := ih fun a ha => h a (List.mem_cons_of_mem _ ha)
    simp only [renderAll]
    cases hrx : r x with
    | none =>
      rw [hrx] at hx
      simp at hx
    | some s =>
      cases hrs : renderAll r xs with
      | none =>
        rw [hrs] at hxs
        simp at hxs
      | some rest => rfl

theorem report_isSome (large old : List FileRecord)
    (gs : List ((String × Nat) × List FileRecord))
    (h1 : ∀ f ∈ large, f.size.isSome)
    (h2 : ∀ g ∈ gs, 1 < (Prod.snd g).length → ∀ f ∈ Prod.snd g, f.parents ≠ some []) :
    (report large old gs).isSome := by
  have hlarge : (renderAll renderLargeFile large).isSome := by
    apply renderAll_isSome
    intro f hf
    have hsz := h1 f hf
    cases hs : f.size with
    | none =>
      rw [hs] at hsz
      simp at hsz
    | some s => simp [renderLargeFile, hs]
  have hdup : (renderDupSection gs).isSome := by
    have hall : (renderAll (fun g => renderDupGroup g.1 g.2)
        (gs.filter fun g => decide (1 < g.2.length))).isSome := by
      apply renderAll_isSome
      intro g hg
      obtain ⟨hgs, hlen⟩ := List.mem_filter.mp hg
      have hlen2 : 1 < g.2.length := of_decide_eq_true hlen
      have hmem : (renderAll renderDupMember g.2).isSome := by
        apply renderAll_isSome
        intro f hf
        have hp := h2 g hgs hlen2 f hf
        cases hpar : f.parents with
        | none => simp [renderDupMember, hpar]
        | some l =>
          cases l with
          | nil => exact absurd hpar hp
          | cons p ps => simp [renderDupMember, hpar]
      unfold renderDupGroup
      cases hra : renderAll renderDupMember g.2 with
      | none =>
        rw [hra] at hmem
        simp at hmem
      | some items => rfl
    unfold renderDupSection
    cases hall2 : renderAll (fun g => renderDupGroup g.1 g.2)
        (gs.filter fun g => decide (1 < g.2.length)) with
    | none =>
      rw [hall2] at hall
      simp at hall
    | some items => rfl
  unfold report
  cases hra : renderAll renderLargeFile large with
  | none =>
    rw [hra] at hlarge
    simp at hlarge
  | some items =>
    cases hrd : renderDupSection gs with
    | none =>
      rw [hrd] at hdup
      simp at hdup
    | some dsec => rfl

/-- C2 (amended): the renderer substitutes the literal "unknown" parent
placeholder exactly when a duplicate-group member's parents field is
absent; an empty (but present) parents list makes it fail (IndexError),
as does a large-files record without a size (KeyError) and — in the
`fm2.py` renderer — an old-docs record without a webViewLink.  It
renders without failing whenever every large-files record has a size
and no member of a duplicate group (of more than one member) has an
empty parents list. -/
theorem C2_amended_render_defaults (large old : List FileRecord)
    (gs : List ((String × Nat) × List FileRecord))
    (h1 : ∀ f ∈ large, f.size.isSome)
    (h2 : ∀ g ∈ gs, 1 < (Prod.snd g).length → ∀ f ∈ Prod.snd g, f.parents ≠ some []) :
    (report large old gs).isSome ∧
    (∀ f : FileRecord, f.parents = none →
      renderDupMember f = some ("<li>ID: " ++ f.id ++ " (parent folder: unknown)</li>")) ∧
    (∀ f : FileRecord, f.webViewLink = none → renderOldDocFm2 f = none) := by
  refine ⟨report_isSome large old gs h1 h2, ?_, ?_⟩
  · intro f hp
    simp [renderDupMember, hp]
  · intro f hw
    simp [renderOldDocFm2, hw]

theorem C2_amended_render_defaults_witness :
    (report [⟨"f1", "a", some 5, "t1", none, none⟩] []
      [(("a", 5), [⟨"f1", "a", some 5, "t1", none, none⟩,
                   ⟨"f2", "a", some 5, "t2", some ["p1"], none⟩])]).isSome :=
  (C2_amended_render_defaults _ _ _ (by decide) (by decide)).1
